import Mathlib

/-!
# QR_Decoder — verification of the core state logic

Shallow embedding of `src/main.py` (a Tkinter barcode/QR scanner).

External collaborators (OpenCV capture, pyzbar decoding, Tkinter widgets,
the system browser, pymsgbox) are modelled at their interfaces:

* an image is a grid of colour pixels (`List (List Pixel)`); the decoder
  `pyzbar.decode` and the grayscale conversion `cv2.cvtColor(·, BGR2GRAY)`
  are arbitrary function parameters (`det`, `gray`), since their pixel-level
  behaviour lives outside this repository;
* `cv2.cvtColor(·, BGR2RGB)` has simple, well-known semantics (swap the
  first and third channel of every pixel) and is embedded exactly;
* the rasterisation of `cv2.rectangle` / `cv2.putText` is kept symbolic: an
  annotated frame is its pixel base together with the ordered list of draw
  calls issued on it;
* side effects (`webbrowser.open`, `pymsgbox.alert`) are recorded in the
  results instead of performed;
* the Tkinter treeview is the list of its `(ordinal, data)` value pairs,
  in insertion order.

The global mutable state of the program (`seen_barcodes`, the treeview
rows, the image shown on `cam_label`, the capture handle) is threaded
explicitly.
-/

/-- A colour pixel, three 8-bit channels (channel order is whatever the
producing call used; `cv2.cvtColor BGR2RGB` swaps channels 0 and 2). -/
abbrev Pixel := Nat × Nat × Nat

/-- An image: rows of pixels. -/
abbrev Image := List (List Pixel)

/-- `cv2.cvtColor(img, cv2.COLOR_BGR2RGB)`: swap the first and third
channel of every pixel. -/
def cvtColorSwap (img : Image) : Image :=
  img.map (fun row => row.map (fun p => (p.2.2, p.2.1, p.1)))

/-- `cv2.flip(img, 1)`: mirror each row horizontally. -/
def flipHorizontal (img : Image) : Image :=
  img.map List.reverse

/-- One detected code as returned by `pyzbar.decode`: payload text
(`barcode.data.decode("utf-8")`), symbology (`barcode.type`) and the
bounding box `barcode.rect = (x, y, w, h)`. -/
structure Barcode where
  data : String
  type : String
  rect : Int × Int × Int × Int
deriving Repr, DecidableEq

/-- A draw call issued on a frame (`cv2.rectangle` / `cv2.putText`);
rasterisation is external, so the call itself is the annotation. -/
inductive Ann where
  | rectangle (x1 y1 x2 y2 : Int) (color : Pixel) (thickness : Nat)
  | putText (s : String) (x y : Int) (color : Pixel)
deriving Repr, DecidableEq

/-- An annotated frame: its pixel base plus the draw calls issued on it. -/
abbrev AnnImage := Image × List Ann

/-- Draw calls for an already-seen barcode (`main.py` lines 40-42):
grey rectangle plus the bare payload text. -/
def annsSeen (b : Barcode) : List Ann :=
  let (x, y, w, h) := b.rect
  [Ann.rectangle x y (x + w) (y + h) (225, 225, 225) 2,
   Ann.putText b.data x (y - 10) (225, 225, 225)]

/-- Draw calls for a newly seen barcode (`main.py` lines 51-60):
grey rectangle plus the "payload (type)" label. -/
def annsNew (b : Barcode) : List Ann :=
  let (x, y, w, h) := b.rect
  [Ann.rectangle x y (x + w) (y + h) (225, 225, 225) 2,
   Ann.putText (b.data ++ " (" ++ b.type ++ ")") x (y - 10) (225, 225, 225)]

/-- Result of the per-frame dedup loop of `decode_barcodes_over_feed`
(`main.py` lines 30-63): the updated `seen_barcodes`, the treeview rows
appended, the `webbrowser.open` calls made, and the draw calls issued —
each list in program order. -/
structure StepOut where
  seen : List String
  rows : List (Nat × String)
  opens : List String
  anns : List Ann
deriving Repr, DecidableEq

/-- The `for i, barcode in enumerate(barcodes):` loop of
`decode_barcodes_over_feed`, with `seen` playing the global
`seen_barcodes` and `i` the enumeration index. An already-seen payload
gets its box drawn and is skipped (`continue`); a new payload is added to
the set, opened in the browser, boxed and labelled, and inserted into the
treeview as `(i+1, data)`. -/
def processCodes (seen : List String) : List Barcode → Nat → StepOut
  | [], _ => ⟨seen, [], [], []⟩
  | b :: rest, i =>
    if b.data ∈ seen then
      let r := processCodes seen rest (i + 1)
      { r with anns := annsSeen b ++ r.anns }
    else
      let r := processCodes (b.data :: seen) rest (i + 1)
      { seen := r.seen
        rows := (i + 1, b.data) :: r.rows
        opens := b.data :: r.opens
        anns := annsNew b ++ r.anns }

/-- Result of `decode_barcodes_over_feed`: the returned (annotated) image
and the state/effects of the loop. -/
structure FeedOut where
  ann : AnnImage
  rows : List (Nat × String)
  opens : List String
  seen : List String
deriving Repr, DecidableEq

/-- `decode_barcodes_over_feed(image)` (`main.py` lines 17-66).
`det` stands for `pyzbar.decode` applied to `np.array(image)`.  The
returned frame is `PIL.Image.fromarray(cv2.cvtColor(image_np,
cv2.COLOR_BGR2RGB))`: the input pixels with channels 0 and 2 swapped,
carrying the draw calls the loop issued. -/
def decode_barcodes_over_feed (det : Image → List Barcode) (image : Image)
    (seen : List String) : FeedOut :=
  let barcodes := det image
  let r := processCodes seen barcodes 0
  { ann := (cvtColorSwap image, r.anns)
    rows := r.rows
    opens := r.opens
    seen := r.seen }

/-- Errors raised by OpenCV bindings: passing `None` where a numpy array
is expected fails overload resolution (`cv2.error`, bad argument). -/
inductive CvError where
  | badArgument
deriving Repr, DecidableEq

/-- `cv2.flip(frame, 1)` on the result of `cap.read()`: on a failed read
the frame is `None` and the OpenCV binding raises instead of returning. -/
def cv2Flip1 : Option Image → Except CvError Image
  | none => .error .badArgument
  | some img => .ok (flipHorizontal img)

/-- Observable outcome of one `update_frame` tick (`main.py` lines
87-110): the dedup state after the tick, the rows/open calls produced,
the image put on the label (if any), whether the detector ran, whether a
modal alert was shown, whether `label.after(10, update_frame)` executed,
and whether an exception escaped the callback. -/
structure TickResult where
  seen : List String
  rows : List (Nat × String)
  opens : List String
  displayed : Option AnnImage
  detectorRan : Bool
  alerted : Bool
  rescheduled : Bool
  raised : Bool
deriving Repr, DecidableEq

/-- One tick of `update_frame`.  `read` is the frame from `cap.read()`
(`none` when `ret` is false).  The code flips the frame BEFORE testing
`ret` (line 92 precedes line 94), so a failed read raises inside
`cv2.flip` and the trailing `label.after` on line 110 never runs. -/
def update_frame (det : Image → List Barcode) (read : Option Image)
    (seen : List String) : TickResult :=
  match cv2Flip1 read with
  | .error _ =>
    { seen := seen, rows := [], opens := [], displayed := none
      detectorRan := false, alerted := false, rescheduled := false
      raised := true }
  | .ok frame =>
    let rgb := cvtColorSwap frame
    let r := decode_barcodes_over_feed det rgb seen
    { seen := r.seen, rows := r.rows, opens := r.opens
      displayed := some r.ann
      detectorRan := true, alerted := false, rescheduled := true
      raised := false }

/-- Running the live feed over a sequence of frames, each given by its
detection list: returns the final `seen_barcodes` and all
`webbrowser.open` calls in order. -/
def runFrames (seen : List String) : List (List Barcode) → List String × List String
  | [] => (seen, [])
  | f :: fs =>
    let r := processCodes seen f 0
    let rest := runFrames r.seen fs
    (rest.1, r.opens ++ rest.2)

/-- The program state touched by `detect_code` and the feed: the global
`seen_barcodes`, the treeview rows, the image on `cam_label`, and whether
the capture handle is open. -/
structure AppState where
  seen : List String
  rows : List (Nat × String)
  displayed : Option AnnImage
  capOpen : Bool
deriving Repr, DecidableEq

/-- How loading the still image went.  `PIL.Image.open` raises
`FileNotFoundError` on a missing file; an empty array raises the
`ValueError` of line 157; both are caught by line 159's
`except (FileNotFoundError, ValueError)`.  A file that is present but
unreadable or not decodable as an image makes `PIL.Image.open` raise
`UnidentifiedImageError` (or another `OSError`), which that `except`
clause does NOT match: the exception propagates out of `detect_code`
uncaught (`undecodable` below). -/
inductive LoadResult where
  | missing
  | empty
  | undecodable
  | ok (img : Image)
deriving Repr, DecidableEq

/-- Whether the load failed (with a caught or an uncaught error). -/
def LoadResult.isErr : LoadResult → Bool
  | .missing => true
  | .empty => true
  | .undecodable => true
  | .ok _ => false

/-- Result of a `detect_code` call: the program state when the call
ends (normally or by an escaping exception), the `webbrowser.open` calls
made, whether a `pymsgbox.alert` was shown, and whether an uncaught
exception propagated out of the function. -/
structure ScanOut where
  state : AppState
  opens : List String
  alerted : Bool
  raised : Bool
deriving Repr, DecidableEq

/-- The still-scan row loop of `detect_code` (`main.py` lines 174-185):
one `(i+1, data)` row per detected code, in order. -/
def stillRows : List Barcode → Nat → List (Nat × String)
  | [], _ => []
  | b :: rest, i => (i + 1, b.data) :: stillRows rest (i + 1)

/-- The red boxes drawn by the still-scan loop (line 179). -/
def stillAnns (ds : List Barcode) : List Ann :=
  ds.map (fun b =>
    let (x, y, w, h) := b.rect
    Ann.rectangle x y (x + w) (y + h) (0, 0, 255) 4)

/-- `detect_code(image)` (`main.py` lines 134-193).  `det` stands for
`pyzbar.decode`, `gray` for `cv2.cvtColor(·, cv2.COLOR_BGR2GRAY)`; the
decoder runs on the grayscale conversion.  The camera is released and the
treeview cleared BEFORE the image is loaded (lines 141-146 precede the
`try` of line 148); on a caught load error (missing / empty) the function
alerts and returns, leaving the label untouched; on an uncaught load
error (undecodable / unreadable file) no alert is shown and the exception
escapes the function, the treeview being already cleared.  On success it
fills the treeview (sentinel row if no code was found), draws the red
boxes, and replaces the label image with the BGR2RGB-converted annotated
array. -/
def detect_code (det : Image → List Barcode) (gray : Image → Image)
    (load : LoadResult) (st : AppState) : ScanOut :=
  let st1 : AppState := { st with capOpen := false, rows := [] }
  match load with
  | .missing => { state := st1, opens := [], alerted := true, raised := false }
  | .empty => { state := st1, opens := [], alerted := true, raised := false }
  | .undecodable => { state := st1, opens := [], alerted := false, raised := true }
  | .ok img =>
    let ds := det (gray img)
    let rows := if ds.isEmpty then [(1, "No barcodes detected")]
                else stillRows ds 0
    { state := { st1 with
                  rows := rows
                  displayed := some (cvtColorSwap img, stillAnns ds) }
      opens := []
      alerted := false
      raised := false }

/-- Python's `s.startswith(pre)`: `pre` is a prefix of the character
sequence of `s`. -/
def pyStartsWith (s pre : String) : Bool :=
  pre.toList.isPrefixOf s.toList

/-- `select_link(event)` (`main.py` lines 195-217) on a row whose payload
is `link`; `response` is what `pymsgbox.confirm` would answer if asked.
Returns the `webbrowser.open` calls made. -/
def select_link (link : String) (response : String) : List String :=
  if pyStartsWith link "https:" then [link]
  else if response == "OK" then [link]
  else []

/-- Spec-side description of the still-scan rows (§4.2 / C8): one row per
detected code, in detector-returned order, with 1-based ordinals local to
this scan.  Stated through `List.enum`, independently of the loop above. -/
def stillRowsSpec (ds : List Barcode) : List (Nat × String) :=
  ds.enum.map (fun p => (p.1 + 1, p.2.data))

/-! ## Helper lemmas about the dedup loop -/

theorem processCodes_nil (seen : List String) (i : Nat) :
    processCodes seen [] i = ⟨seen, [], [], []⟩ := rfl

theorem processCodes_seen_mono (codes : List Barcode) :
    ∀ (seen : List String) (i : Nat), seen ⊆ (processCodes seen codes i).seen := by
  induction codes with
  | nil => intro seen i; simp [processCodes]
  | cons b rest ih =>
    intro seen i
    simp only [processCodes]
    split
    · exact ih seen (i + 1)
    · exact (List.subset_cons_self b.data seen).trans (ih (b.data :: seen) (i + 1))

theorem processCodes_not_mem_seen_of_mem_opens (codes : List Barcode) :
    ∀ (seen : List String) (i : Nat) (p : String),
      p ∈ (processCodes seen codes i).opens → p ∉ seen := by
  induction codes with
  | nil => intro seen i p h; simp [processCodes] at h
  | cons b rest ih =>
    intro seen i p h
    simp only [processCodes] at h
    split at h
    · exact ih seen (i + 1) p h
    · rcases List.mem_cons.mp h with h1 | h1
      · subst h1; assumption
      · intro hmem
        exact ih _ (i + 1) p h1 (List.mem_cons_of_mem _ hmem)

theorem processCodes_not_mem_seen_of_mem_rows (codes : List Barcode) :
    ∀ (seen : List String) (i : Nat) (n : Nat) (p : String),
      (n, p) ∈ (processCodes seen codes i).rows → p ∉ seen := by
  induction codes with
  | nil => intro seen i n p h; simp [processCodes] at h
  | cons b rest ih =>
    intro seen i n p h
    simp only [processCodes] at h
    split at h
    · exact ih seen (i + 1) n p h
    · rcases List.mem_cons.mp h with h1 | h1
      · rw [Prod.mk.injEq] at h1
        rw [h1.2] at *
        assumption
      · intro hmem
        exact ih _ (i + 1) n p h1 (List.mem_cons_of_mem _ hmem)

theorem processCodes_mem_seen_of_mem_opens (codes : List Barcode) :
    ∀ (seen : List String) (i : Nat) (p : String),
      p ∈ (processCodes seen codes i).opens → p ∈ (processCodes seen codes i).seen := by
  induction codes with
  | nil => intro seen i p h; simp [processCodes] at h
  | cons b rest ih =>
    intro seen i p h
    by_cases hb : b.data ∈ seen
    · simp only [processCodes, if_pos hb] at h ⊢
      exact ih seen (i + 1) p h
    · simp only [processCodes, if_neg hb] at h ⊢
      rcases List.mem_cons.mp h with h1 | h1
      · subst h1
        exact processCodes_seen_mono rest (b.data :: seen) (i + 1)
          (List.mem_cons_self b.data seen)
      · exact ih _ (i + 1) p h1

theorem processCodes_opens_nodup (codes : List Barcode) :
    ∀ (seen : List String) (i : Nat), (processCodes seen codes i).opens.Nodup := by
  induction codes with
  | nil => intro seen i; simp [processCodes]
  | cons b rest ih =>
    intro seen i
    simp only [processCodes]
    split
    · exact ih seen (i + 1)
    · refine List.nodup_cons.mpr ⟨?_, ih (b.data :: seen) (i + 1)⟩
      intro hmem
      exact processCodes_not_mem_seen_of_mem_opens rest (b.data :: seen) (i + 1)
        b.data hmem (List.mem_cons_self b.data seen)

theorem processCodes_opens_count_le_one (p : String) (seen : List String)
    (codes : List Barcode) (i : Nat) :
    (processCodes seen codes i).opens.count p ≤ 1 :=
  List.nodup_iff_count_le_one.mp (processCodes_opens_nodup codes seen i) p

theorem runFrames_opens_count (p : String) (fs : List (List Barcode)) :
    ∀ seen : List String,
      (runFrames seen fs).2.count p ≤ 1 ∧
      (p ∈ seen → (runFrames seen fs).2.count p = 0) := by
  induction fs with
  | nil => intro seen; simp [runFrames]
  | cons f rest ih =>
    intro seen
    simp only [runFrames, List.count_append]
    constructor
    · by_cases hs : p ∈ (processCodes seen f 0).seen
      · have h2 := (ih (processCodes seen f 0).seen).2 hs
        have h1 := processCodes_opens_count_le_one p seen f 0
        omega
      · have h1 : (processCodes seen f 0).opens.count p = 0 :=
          List.count_eq_zero.mpr
            (fun hmem => hs (processCodes_mem_seen_of_mem_opens f seen 0 p hmem))
        have h2 := (ih (processCodes seen f 0).seen).1
        omega
    · intro hseen
      have h1 : (processCodes seen f 0).opens.count p = 0 :=
        List.count_eq_zero.mpr
          (fun hmem => processCodes_not_mem_seen_of_mem_opens f seen 0 p hmem hseen)
      have h2 := (ih (processCodes seen f 0).seen).2
        (processCodes_seen_mono f seen 0 hseen)
      omega

/-! ## Claim theorems -/

/-- C1: in live mode, each distinct payload triggers the open-URL side
effect at most once per session (a session starts with an empty dedup
set), and once a payload is in the dedup set, processing any later frame
containing it performs no dispatch and emits no new display row. -/
theorem live_dispatch_at_most_once_per_session :
    ∀ (frames : List (List Barcode)) (p : String),
      (runFrames [] frames).2.count p ≤ 1 ∧
      ∀ (seen : List String) (codes : List Barcode) (i : Nat), p ∈ seen →
        p ∉ (processCodes seen codes i).opens ∧
        ∀ n : Nat, (n, p) ∉ (processCodes seen codes i).rows := by
  intro frames p
  refine ⟨(runFrames_opens_count p frames []).1, ?_⟩
  intro seen codes i hp
  exact ⟨fun hmem => processCodes_not_mem_seen_of_mem_opens codes seen i p hmem hp,
    fun n hmem => processCodes_not_mem_seen_of_mem_rows codes seen i n p hmem hp⟩

/-- Witness for C1 at a concrete session: one frame carrying payload "x",
and a dedup set already containing "x". -/
theorem live_dispatch_at_most_once_per_session_witness :
    (runFrames [] [[⟨"x", "QRCODE", (0, 0, 1, 1)⟩]]).2.count "x" ≤ 1 ∧
    "x" ∉ (processCodes ["x"] [⟨"x", "QRCODE", (0, 0, 1, 1)⟩] 0).opens ∧
    ∀ n : Nat, (n, "x") ∉ (processCodes ["x"] [⟨"x", "QRCODE", (0, 0, 1, 1)⟩] 0).rows := by
  have h := live_dispatch_at_most_once_per_session [[⟨"x", "QRCODE", (0, 0, 1, 1)⟩]] "x"
  have h2 := h.2 ["x"] [⟨"x", "QRCODE", (0, 0, 1, 1)⟩] 0 (by simp)
  exact ⟨h.1, h2.1, h2.2⟩

/-- C2: the dedup set grows monotonically: each per-frame processing call
(and each full tick) only extends `seen_barcodes`, and the still scan
never changes it; no operation removes a member. -/
theorem dedup_set_monotone :
    ∀ (seen : List String) (codes : List Barcode) (i : Nat)
      (det : Image → List Barcode) (read : Option Image)
      (gray : Image → Image) (load : LoadResult) (st : AppState),
      seen ⊆ (processCodes seen codes i).seen ∧
      seen ⊆ (update_frame det read seen).seen ∧
      (detect_code det gray load st).state.seen = st.seen := by
  intro seen codes i det read gray load st
  refine ⟨processCodes_seen_mono codes seen i, ?_, ?_⟩
  · cases read with
    | none => simp [update_frame, cv2Flip1]
    | some img =>
      simp only [update_frame, cv2Flip1, decode_barcodes_over_feed]
      exact processCodes_seen_mono _ _ _
  · cases load <;> rfl

/-- Witness for C2: a dedup set containing "a" still contains "a" after a
processing call. -/
theorem dedup_set_monotone_witness :
    "a" ∈ (processCodes ["a"] [] 0).seen := by
  have h := dedup_set_monotone ["a"] [] 0 (fun _ => []) none id .missing
    ⟨[], [], none, false⟩
  exact h.1 (by simp)

/-- C3 (behaviour at the failing input): when `cap.read()` fails (`ret`
false, frame `None`), the tick indeed runs no detector, keeps the dedup
set, shows no alert — but `cv2.flip` raises on the `None` frame before
the `ret` test, so the exception escapes and `label.after` on line 110
never executes: the timer does NOT reschedule, contrary to the claim. -/
theorem tick_read_failure_skips_but_never_reschedules :
    ∀ (det : Image → List Barcode) (seen : List String),
      update_frame det none seen =
        { seen := seen, rows := [], opens := [], displayed := none
          detectorRan := false, alerted := false, rescheduled := false
          raised := true } := by
  intro det seen
  rfl

/-- C5 counterexample: with an empty detection list the returned frame is
the channel-swapped input, not the input itself — here a single red-ish
pixel comes back with its first and third channel exchanged. -/
theorem feed_empty_detections_counterexample :
    (decode_barcodes_over_feed (fun _ => []) [[(1, 0, 0)]] []).ann
      ≠ ([[(1, 0, 0)]], []) := by
  decide

/-- C5 amended: on an empty detection list the live-mode processing draws
no annotation, emits no rows, performs no side effects and keeps the
dedup set; the returned frame is the input frame altered only by the
unconditional BGR↔RGB channel swap applied to every returned frame. -/
theorem feed_empty_detections_amended :
    ∀ (det : Image → List Barcode) (image : Image) (seen : List String),
      det image = [] →
      decode_barcodes_over_feed det image seen =
        { ann := (cvtColorSwap image, []), rows := [], opens := [], seen := seen } := by
  intro det image seen h
  simp [decode_barcodes_over_feed, h, processCodes]

/-- Witness for the amended C5 on a concrete pixel grid. -/
theorem feed_empty_detections_amended_witness :
    decode_barcodes_over_feed (fun _ => []) [[(1, 0, 0)]] [] =
      { ann := (cvtColorSwap [[(1, 0, 0)]], []), rows := [], opens := []
        seen := [] } :=
  feed_empty_detections_amended (fun _ => []) [[(1, 0, 0)]] [] rfl

/-- C7: a still scan whose detector finds zero codes leaves exactly the
sentinel row, whatever rows were displayed before. -/
theorem still_scan_zero_codes_sentinel :
    ∀ (det : Image → List Barcode) (gray : Image → Image) (img : Image)
      (st : AppState),
      det (gray img) = [] →
      (detect_code det gray (.ok img) st).state.rows
        = [(1, "No barcodes detected")] := by
  intro det gray img st h
  simp [detect_code, h]

/-- Witness for C7: prior rows and dedup state are present and the
sentinel row still replaces everything. -/
theorem still_scan_zero_codes_sentinel_witness :
    (detect_code (fun _ => []) id (.ok [[(0, 0, 0)]])
        ⟨["a"], [(1, "old")], none, true⟩).state.rows
      = [(1, "No barcodes detected")] :=
  still_scan_zero_codes_sentinel (fun _ => []) id [[(0, 0, 0)]]
    ⟨["a"], [(1, "old")], none, true⟩ rfl

/-- C10: a still scan — failed or successful — makes no browser-open call
and leaves the session dedup set exactly as it was. -/
theorem still_scan_no_open_no_dedup_mutation :
    ∀ (det : Image → List Barcode) (gray : Image → Image)
      (load : LoadResult) (st : AppState),
      (detect_code det gray load st).opens = [] ∧
      (detect_code det gray load st).state.seen = st.seen := by
  intro det gray load st
  cases load <;> simp [detect_code]

/-- C4 counterexample, refuting the claim at two explicit inputs: on a
missing still image the previously displayed row list is NOT preserved —
the treeview was already cleared before the load was attempted — and on
a present but undecodable image NO user-visible alert is shown at all:
`PIL.Image.open` raises past the `except (FileNotFoundError, ValueError)`
clause and the exception propagates out of the scan. -/
theorem still_scan_load_error_counterexample :
    (detect_code (fun _ => []) id .missing
        ⟨[], [(1, "x")], none, true⟩).state.rows
      ≠ [(1, "x")] ∧
    (detect_code (fun _ => []) id .undecodable
        ⟨[], [(1, "x")], none, true⟩).alerted = false ∧
    (detect_code (fun _ => []) id .undecodable
        ⟨[], [(1, "x")], none, true⟩).raised = true := by
  refine ⟨by decide, rfl, rfl⟩

/-- C4 amended: when the still-image load fails (missing, unreadable,
undecodable or empty image), the scan performs no detection (the result
does not depend on the detector or on the grayscale conversion), opens
nothing, and leaves the displayed image and the dedup set unchanged —
but the previously displayed row list is not preserved: it was cleared
before the load attempt, so the row list ends empty.  A user-visible
alert is shown exactly for the two errors the code catches (missing
file, empty image); a present but unreadable or undecodable file raises
past the `except` clause instead, so no alert is shown there and the
exception propagates uncaught out of the scan. -/
theorem still_scan_load_error_amended :
    ∀ (det det' : Image → List Barcode) (gray gray' : Image → Image)
      (load : LoadResult) (st : AppState),
      load.isErr = true →
      (detect_code det gray load st).opens = [] ∧
      (detect_code det gray load st).state.rows = [] ∧
      (detect_code det gray load st).state.displayed = st.displayed ∧
      (detect_code det gray load st).state.seen = st.seen ∧
      detect_code det gray load st = detect_code det' gray' load st ∧
      ((detect_code det gray load st).alerted = true
        ↔ (load = .missing ∨ load = .empty)) ∧
      ((detect_code det gray load st).raised = true
        ↔ load = .undecodable) := by
  intro det det' gray gray' load st h
  cases load with
  | missing => exact ⟨rfl, rfl, rfl, rfl, rfl, by simp [detect_code], by simp [detect_code]⟩
  | empty => exact ⟨rfl, rfl, rfl, rfl, rfl, by simp [detect_code], by simp [detect_code]⟩
  | undecodable =>
    exact ⟨rfl, rfl, rfl, rfl, rfl, by simp [detect_code], by simp [detect_code]⟩
  | ok img => simp [LoadResult.isErr] at h

/-- Witness for the amended C4 at a missing file with a prior row. -/
theorem still_scan_load_error_amended_witness :
    (detect_code (fun _ => []) id .missing
        ⟨["s"], [(1, "x")], none, true⟩).alerted = true :=
  ((still_scan_load_error_amended (fun _ => []) (fun _ => []) id id .missing
    ⟨["s"], [(1, "x")], none, true⟩ rfl).2.2.2.2.2.1).mpr (Or.inl rfl)

theorem stillRows_eq_enumFrom :
    ∀ (ds : List Barcode) (i : Nat),
      stillRows ds i = (ds.enumFrom i).map (fun p => (p.1 + 1, p.2.data)) := by
  intro ds
  induction ds with
  | nil => intro i; simp [stillRows]
  | cons b rest ih => intro i; simp [stillRows, List.enumFrom, ih]

/-- C8: a successful still scan on an image with a nonempty detection
list reports one row per detected code, in detector order, with 1-based
ordinals local to this scan — and the session dedup set plays no role
(the rows do not depend on the state at all, and the set is unchanged). -/
theorem still_scan_rows_enumerate_detections :
    ∀ (det : Image → List Barcode) (gray : Image → Image) (img : Image)
      (st : AppState),
      det (gray img) ≠ [] →
      (detect_code det gray (.ok img) st).state.rows
          = stillRowsSpec (det (gray img)) ∧
      (detect_code det gray (.ok img) st).state.rows.length
          = (det (gray img)).length ∧
      (detect_code det gray (.ok img) st).state.seen = st.seen := by
  intro det gray img st h
  have hne : (det (gray img)).isEmpty = false := by
    cases hd : det (gray img) with
    | nil => exact absurd hd h
    | cons a l => rfl
  have hrows : (detect_code det gray (.ok img) st).state.rows
      = stillRowsSpec (det (gray img)) := by
    simp [detect_code, hne, stillRowsSpec, List.enum, stillRows_eq_enumFrom]
  refine ⟨hrows, ?_, by simp [detect_code]⟩
  rw [hrows]
  simp [stillRowsSpec]

/-- Witness for C8: two codes, ordinals 1 and 2, with payload "a" already
present in the live-session dedup set. -/
theorem still_scan_rows_enumerate_detections_witness :
    (detect_code
        (fun _ => [⟨"a", "QRCODE", (0, 0, 1, 1)⟩, ⟨"b", "QRCODE", (2, 0, 1, 1)⟩])
        id (.ok [[(0, 0, 0)]]) ⟨["a"], [(9, "z")], none, true⟩).state.rows
      = stillRowsSpec
          [⟨"a", "QRCODE", (0, 0, 1, 1)⟩, ⟨"b", "QRCODE", (2, 0, 1, 1)⟩] :=
  (still_scan_rows_enumerate_detections
    (fun _ => [⟨"a", "QRCODE", (0, 0, 1, 1)⟩, ⟨"b", "QRCODE", (2, 0, 1, 1)⟩])
    id [[(0, 0, 0)]] ⟨["a"], [(9, "z")], none, true⟩ (by decide)).1

/-- C9: a selected row opens unconditionally exactly when its payload
starts with the literal prefix "https:"; otherwise the user is asked,
an affirmative ("OK") answer opens it, any other answer opens nothing. -/
theorem select_link_https_unconditional_iff :
    ∀ link : String,
      ((∀ response, select_link link response = [link])
          ↔ pyStartsWith link "https:" = true) ∧
      (pyStartsWith link "https:" = false →
        select_link link "OK" = [link] ∧
        ∀ response, response ≠ "OK" → select_link link response = []) := by
  intro link
  have hCancel : (("Cancel" : String) == "OK") = false := by decide
  constructor
  · constructor
    · intro hall
      by_cases hs : pyStartsWith link "https:" = true
      · exact hs
      · exfalso
        have := hall "Cancel"
        rw [select_link, if_neg (by simp [hs]), if_neg (by simp [hCancel])] at this
        exact List.cons_ne_nil link [] this.symm
    · intro hs response
      rw [select_link, if_pos (by simp [hs])]
  · intro hs
    constructor
    · rw [select_link, if_neg (by simp [hs]), if_pos (by simp)]
    · intro response hr
      rw [select_link, if_neg (by simp [hs]),
        if_neg (by simp [beq_eq_false_iff_ne.mpr hr])]

/-- Witness for C9 on the spec's scenario payload "ftp://host/res":
confirming dispatches, declining does not. -/
theorem select_link_https_unconditional_iff_witness :
    select_link "ftp://host/res" "OK" = ["ftp://host/res"] ∧
    select_link "ftp://host/res" "Cancel" = [] := by
  have h := (select_link_https_unconditional_iff "ftp://host/res").2 (by decide)
  exact ⟨h.1, h.2 "Cancel" (by decide)⟩

theorem processCodes_rows_mem_position (codes : List Barcode) :
    ∀ (seen : List String) (i : Nat) (n : Nat) (p : String),
      (n, p) ∈ (processCodes seen codes i).rows →
      ∃ j b, n = i + j + 1 ∧ codes[j]? = some b ∧ b.data = p := by
  induction codes with
  | nil => intro seen i n p h; simp [processCodes] at h
  | cons b rest ih =>
    intro seen i n p h
    by_cases hb : b.data ∈ seen
    · simp only [processCodes, if_pos hb] at h
      obtain ⟨j, c, hn, hget, hdata⟩ := ih seen (i + 1) n p h
      exact ⟨j + 1, c, by omega, by simpa using hget, hdata⟩
    · simp only [processCodes, if_neg hb] at h
      rcases List.mem_cons.mp h with h1 | h1
      · rw [Prod.mk.injEq] at h1
        obtain ⟨hn1, hp1⟩ := h1
        exact ⟨0, b, by omega, by simp, hp1.symm⟩
      · obtain ⟨j, c, hn, hget, hdata⟩ := ih (b.data :: seen) (i + 1) n p h1
        exact ⟨j + 1, c, by omega, by simpa using hget, hdata⟩

theorem processCodes_new_code_row (codes : List Barcode) :
    ∀ (seen : List String) (i : Nat) (j : Nat) (b : Barcode),
      codes[j]? = some b → b.data ∉ seen →
      (∀ k c, k < j → codes[k]? = some c → c.data ≠ b.data) →
      (i + j + 1, b.data) ∈ (processCodes seen codes i).rows := by
  induction codes with
  | nil => intro seen i j b hget _ _; simp at hget
  | cons b0 rest ih =>
    intro seen i j b hget hnot hdist
    cases j with
    | zero =>
      simp only [List.getElem?_cons_zero, Option.some.injEq] at hget
      subst hget
      simp only [processCodes, if_neg hnot]
      exact List.mem_cons_self _ _
    | succ k =>
      simp only [List.getElem?_cons_succ] at hget
      have hb_ne : b.data ≠ b0.data :=
        Ne.symm (hdist 0 b0 (Nat.succ_pos k) (by simp))
      have hdist' : ∀ k' c, k' < k → rest[k']? = some c → c.data ≠ b.data := by
        intro k' c hk hget'
        exact hdist (k' + 1) c (by omega) (by simpa using hget')
      have harith : i + 1 + k + 1 = i + (k + 1) + 1 := by omega
      by_cases hb0 : b0.data ∈ seen
      · simp only [processCodes, if_pos hb0]
        have hmem := ih seen (i + 1) k b hget hnot hdist'
        rw [harith] at hmem
        exact hmem
      · simp only [processCodes, if_neg hb0]
        refine List.mem_cons_of_mem _ ?_
        have hnot' : b.data ∉ b0.data :: seen := by
          intro hmem
          rcases List.mem_cons.mp hmem with h | h
          · exact hb_ne h
          · exact hnot h
        have hmem := ih (b0.data :: seen) (i + 1) k b hget hnot' hdist'
        rw [harith] at hmem
        exact hmem

/-- C6: in live mode, every emitted display row `(n, p)` carries as `n`
the 1-based position of its own code within the current frame's detection
list (already-seen codes preceding it included in the count); conversely,
a detection whose payload is new to the session and not duplicated
earlier in the same frame yields exactly the row at its own 1-based
position.  Ordinals are frame-local, not a running total. -/
theorem live_row_ordinal_is_frame_position :
    ∀ (seen : List String) (ds : List Barcode),
      (∀ n p, (n, p) ∈ (processCodes seen ds 0).rows →
        1 ≤ n ∧ ∃ b, ds[n - 1]? = some b ∧ b.data = p) ∧
      (∀ j b, ds[j]? = some b → b.data ∉ seen →
        (∀ k c, k < j → ds[k]? = some c → c.data ≠ b.data) →
        (j + 1, b.data) ∈ (processCodes seen ds 0).rows) := by
  intro seen ds
  constructor
  · intro n p h
    obtain ⟨j, c, hn, hget, hdata⟩ := processCodes_rows_mem_position ds seen 0 n p h
    refine ⟨by omega, c, ?_, hdata⟩
    have hj : n - 1 = j := by omega
    rw [hj]
    exact hget
  · intro j b hget hnot hdist
    have hmem := processCodes_new_code_row ds seen 0 j b hget hnot hdist
    have hz : 0 + j + 1 = j + 1 := by omega
    rw [hz] at hmem
    exact hmem

/-- Witness for C6 on a concrete frame: payload "a" is already seen, the
new payload "b" sits at index 1 of the frame's detection list, and the
emitted row is `(2, "b")` — position in the frame, not a running total. -/
theorem live_row_ordinal_is_frame_position_witness :
    (2, "b") ∈ (processCodes ["a"]
      [⟨"a", "QRCODE", (0, 0, 1, 1)⟩, ⟨"b", "QRCODE", (2, 0, 1, 1)⟩] 0).rows := by
  refine (live_row_ordinal_is_frame_position ["a"]
    [⟨"a", "QRCODE", (0, 0, 1, 1)⟩, ⟨"b", "QRCODE", (2, 0, 1, 1)⟩]).2
    1 ⟨"b", "QRCODE", (2, 0, 1, 1)⟩ (by decide) (by decide) ?_
  intro k c hk hget
  have hk0 : k = 0 := by omega
  subst hk0
  simp only [List.getElem?_cons_zero, Option.some.injEq] at hget
  rw [← hget]
  decide
